import Mathlib

/-!
Verification of the client-side data-aggregation and ordered-list
maintenance logic of the mythyst-admin back-office.

The development shallowly embeds:
* the sequential order maintainer (`handleMoveUp` / `handleMoveDown` of
  `src/pages/ForumCategories.tsx` and `src/pages/HomepageBanners.tsx`;
  the two pages contain the same logic, with the banner page calling the
  ordering column `order` instead of `sort_order`),
* the time-bucketed traffic aggregator (`fetchStats` of the
  `AdminTrafficStats` page),
* the CSV chapter importer (`handleCSVImport` of `src/pages/Chapters.tsx`),
* the CSV transaction exporter (`exportToCSV` of the `AdminCoins` page),
* the create-modal defaults of the two orderable collections.
-/

namespace MythystAdmin

/-! ### Sequential order maintainer: data model -/

/-- An orderable record (forum category / homepage banner).  `payload`
stands for all the fields the move operations never touch (`name`,
`description`, `icon`, `is_active`, `image_url`, `title`, `link_url`, ...). -/
structure OrderRec where
  id : String
  sort_order : Int
  payload : String
deriving DecidableEq, Repr

/-- `supabase.update({ sort_order: v }).eq('id', rid)`: set the ordering
column of every row whose id matches. -/
def updateSortOrder (db : List OrderRec) (rid : String) (v : Int) : List OrderRec :=
  db.map (fun r => if r.id = rid then { r with sort_order := v } else r)

/-- `handleMoveUp` with explicit persistence outcomes.  The code first
awaits both updates and only then inspects `error1`/`error2`, so the
second update is applied even when the first one failed; `ok1`/`ok2`
tell whether the corresponding update succeeded.  The returned Bool
reports whether an error was thrown (and caught by the handler). -/
def handleMoveUpWith (ok1 ok2 : Bool) (db : List OrderRec) (rid : String)
    (currentOrder : Int) : List OrderRec × Bool :=
  match db.find? (fun c => c.sort_order == currentOrder - 1) with
  | none => (db, false)
  | some prev =>
      let s1 := if ok1 then updateSortOrder db prev.id currentOrder else db
      let s2 := if ok2 then updateSortOrder s1 rid (currentOrder - 1) else s1
      (s2, !ok1 || !ok2)

/-- `handleMoveDown` with explicit persistence outcomes (symmetric). -/
def handleMoveDownWith (ok1 ok2 : Bool) (db : List OrderRec) (rid : String)
    (currentOrder : Int) : List OrderRec × Bool :=
  match db.find? (fun c => c.sort_order == currentOrder + 1) with
  | none => (db, false)
  | some next =>
      let s1 := if ok1 then updateSortOrder db next.id currentOrder else db
      let s2 := if ok2 then updateSortOrder s1 rid (currentOrder + 1) else s1
      (s2, !ok1 || !ok2)

/-- `handleMoveUp(id, currentOrder)` when both persistence calls succeed. -/
def handleMoveUp (db : List OrderRec) (rid : String) (currentOrder : Int) :
    List OrderRec :=
  (handleMoveUpWith true true db rid currentOrder).1

/-- `handleMoveDown(id, currentOrder)` when both persistence calls succeed. -/
def handleMoveDown (db : List OrderRec) (rid : String) (currentOrder : Int) :
    List OrderRec :=
  (handleMoveDownWith true true db rid currentOrder).1

/-- The ordering column of the whole collection. -/
def sortOrders (db : List OrderRec) : List Int := db.map (fun r => r.sort_order)

/-- The dense range `0..n-1` as integers. -/
def denseRange (n : Nat) : List Int := (List.range n).map (fun i : Nat => (i : Int))

/-- The dense-permutation invariant: the ordering column is a permutation
of `0..N-1`. -/
def Dense (db : List OrderRec) : Prop :=
  List.Perm (sortOrders db) (denseRange db.length)

instance (db : List OrderRec) : Decidable (Dense db) :=
  inferInstanceAs (Decidable (List.Perm (sortOrders db) (denseRange db.length)))

/-- Row ids are pairwise distinct (primary keys). -/
def IdsNodup (db : List OrderRec) : Prop := (db.map (fun r => r.id)).Nodup

instance (db : List OrderRec) : Decidable (IdsNodup db) := by
  unfold IdsNodup; infer_instance

/-! ### Basic lemmas about the invariant -/

theorem denseRange_nodup (n : Nat) : (denseRange n).Nodup := by
  unfold denseRange
  refine List.Nodup.map ?_ (List.nodup_range n)
  intro a b h
  have h2 : (a : Int) = (b : Int) := h
  exact_mod_cast h2

theorem dense_sortOrders_nodup {db : List OrderRec} (h : Dense db) :
    (sortOrders db).Nodup :=
  h.nodup_iff.mpr (denseRange_nodup db.length)

theorem mem_denseRange {n : Nat} {x : Int} :
    x ∈ denseRange n ↔ 0 ≤ x ∧ x < (n : Int) := by
  unfold denseRange
  simp only [List.mem_map, List.mem_range]
  constructor
  · rintro ⟨i, hi, rfl⟩
    omega
  · rintro ⟨h0, hn⟩
    exact ⟨x.toNat, by omega, by omega⟩

theorem dense_sortOrder_bounds {db : List OrderRec} (h : Dense db) {r : OrderRec}
    (hr : r ∈ db) : 0 ≤ r.sort_order ∧ r.sort_order < (db.length : Int) := by
  have hmem : r.sort_order ∈ sortOrders db := List.mem_map_of_mem _ hr
  exact mem_denseRange.mp (h.mem_iff.mp hmem)

theorem dense_exists_rec {db : List OrderRec} (h : Dense db) {x : Int}
    (h0 : 0 ≤ x) (hn : x < (db.length : Int)) : ∃ p ∈ db, p.sort_order = x := by
  have hmem : x ∈ sortOrders db := h.mem_iff.mpr (mem_denseRange.mpr ⟨h0, hn⟩)
  obtain ⟨p, hp, hpx⟩ := List.mem_map.mp hmem
  exact ⟨p, hp, hpx⟩

theorem rec_eq_of_id {db : List OrderRec} (hI : IdsNodup db) {a b : OrderRec}
    (ha : a ∈ db) (hb : b ∈ db) (h : a.id = b.id) : a = b :=
  List.inj_on_of_nodup_map hI ha hb h

theorem rec_eq_of_sortOrder {db : List OrderRec} (hD : Dense db) {a b : OrderRec}
    (ha : a ∈ db) (hb : b ∈ db) (h : a.sort_order = b.sort_order) : a = b :=
  List.inj_on_of_nodup_map (dense_sortOrders_nodup hD) ha hb h

theorem find?_sortOrder_eq {db : List OrderRec} (hD : Dense db) {r : OrderRec}
    {x : Int} (hr : r ∈ db) (hx : r.sort_order = x) :
    db.find? (fun c => c.sort_order == x) = some r := by
  cases h : db.find? (fun c => c.sort_order == x) with
  | none =>
      rw [List.find?_eq_none] at h
      exact absurd (by simp [hx]) (h r hr)
  | some b =>
      have hb : b.sort_order = x := by simpa using List.find?_some h
      have hbm : b ∈ db := List.mem_of_find?_eq_some h
      exact congrArg some (rec_eq_of_sortOrder hD hbm hr (hb.trans hx.symm))

/-! ### A two-point swap of the values of a map is a permutation -/

theorem cons_middle_swap {β : Type} (c d : β) (U V : List β) :
    List.Perm (c :: (U ++ d :: V)) (d :: (U ++ c :: V)) :=
  List.Perm.trans (List.Perm.cons c List.perm_middle)
    (List.Perm.trans (List.Perm.swap d c (U ++ V))
      (List.Perm.cons d List.perm_middle.symm))

theorem map_swap_perm_aux {α β : Type} (f g : α → β) (s u v : List α) (x y : α)
    (hfx : f x = g y) (hfy : f y = g x)
    (hs : ∀ z ∈ s, f z = g z) (hu : ∀ z ∈ u, f z = g z) (hv : ∀ z ∈ v, f z = g z) :
    List.Perm ((s ++ x :: (u ++ y :: v)).map f) ((s ++ x :: (u ++ y :: v)).map g) := by
  simp only [List.map_append, List.map_cons]
  rw [List.map_congr_left hs, List.map_congr_left hu, List.map_congr_left hv, hfx, hfy]
  exact List.Perm.append_left _ (cons_middle_swap (g y) (g x) _ _)

theorem map_swap_perm {α β : Type} (f g : α → β) (l : List α) (a b : α)
    (hl : l.Nodup) (ha : a ∈ l) (hb : b ∈ l) (hab : a ≠ b)
    (hfa : f a = g b) (hfb : f b = g a)
    (hother : ∀ x ∈ l, x ≠ a → x ≠ b → f x = g x) :
    List.Perm (l.map f) (l.map g) := by
  obtain ⟨s, t, rfl⟩ := List.append_of_mem ha
  rcases List.mem_append.mp hb with hbs | hbt0
  · obtain ⟨u, v, rfl⟩ := List.append_of_mem hbs
    rw [List.append_assoc, List.cons_append]
    rw [List.append_assoc, List.cons_append] at hl hother
    rw [List.nodup_append] at hl
    obtain ⟨-, hcons, hdisj⟩ := hl
    rw [List.nodup_cons, List.nodup_append, List.nodup_cons] at hcons
    obtain ⟨hbnot, -, ⟨hanot, -⟩, hdisj2⟩ := hcons
    refine map_swap_perm_aux f g u v t b a hfb hfa ?_ ?_ ?_
    · intro z hz
      refine hother z (by simp [hz]) ?_ ?_
      · intro h; subst h
        exact hdisj hz (by simp)
      · intro h; subst h
        exact hdisj hz (by simp)
    · intro z hz
      refine hother z (by simp [hz]) ?_ ?_
      · intro h; subst h
        exact hdisj2 hz (by simp)
      · intro h; subst h
        exact hbnot (by simp [hz])
    · intro z hz
      refine hother z (by simp [hz]) ?_ ?_
      · intro h; subst h; exact hanot hz
      · intro h; subst h; exact hbnot (by simp [hz])
  · rcases List.mem_cons.mp hbt0 with hba | hbt
    · exact absurd hba.symm hab
    obtain ⟨u, v, rfl⟩ := List.append_of_mem hbt
    rw [List.nodup_append] at hl
    obtain ⟨-, hcons, hdisj⟩ := hl
    rw [List.nodup_cons, List.nodup_append, List.nodup_cons] at hcons
    obtain ⟨hanot, -, ⟨hbnot, -⟩, hdisj2⟩ := hcons
    refine map_swap_perm_aux f g s u v a b hfa hfb ?_ ?_ ?_
    · intro z hz
      refine hother z (by simp [hz]) ?_ ?_
      · intro h; subst h
        exact hdisj hz (by simp)
      · intro h; subst h
        exact hdisj hz (by simp)
    · intro z hz
      refine hother z (by simp [hz]) ?_ ?_
      · intro h; subst h; exact hanot (by simp [hz])
      · intro h; subst h; exact hdisj2 hz (by simp)
    · intro z hz
      refine hother z (by simp [hz]) ?_ ?_
      · intro h; subst h; exact hanot (by simp [hz])
      · intro h; subst h; exact hbnot hz

/-! ### The effect of a successful adjacent swap -/

/-- The record-level effect of the two updates of a move operation on a
collection whose moved record has ordering value `k` and whose found
neighbor sits at ordering value `t`: the moved record (identified by
`rid`) receives `t`, the record holding `t` receives `k`, and every
other record is untouched. -/
def swapMap (rid : String) (k t : Int) (a : OrderRec) : OrderRec :=
  if a.id = rid then { a with sort_order := t }
  else if a.sort_order = t then { a with sort_order := k }
  else a

theorem double_update_eq {db : List OrderRec} {r p : OrderRec} {t : Int}
    (hD : Dense db) (hI : IdsNodup db) (hr : r ∈ db) (hp : p ∈ db)
    (hpt : p.sort_order = t) (hne : p.sort_order ≠ r.sort_order) :
    updateSortOrder (updateSortOrder db p.id r.sort_order) r.id t =
      db.map (swapMap r.id r.sort_order t) := by
  have hpr : p ≠ r := fun h => hne (by rw [h])
  have hpid : p.id ≠ r.id := fun h => hpr (rec_eq_of_id hI hp hr h)
  unfold updateSortOrder
  rw [List.map_map]
  refine List.map_congr_left ?_
  intro a ha
  simp only [Function.comp_apply, swapMap]
  by_cases h1 : a.id = r.id
  · have hnp : ¬ a.id = p.id := by
      rw [h1]; exact fun h => hpid h.symm
    rw [if_neg hnp, if_pos h1, if_pos h1]
  · by_cases h2 : a.sort_order = t
    · have hap : a = p := rec_eq_of_sortOrder hD ha hp (h2.trans hpt.symm)
      have hidp : a.id = p.id := by rw [hap]
      rw [if_pos hidp]
      simp only [if_neg h1]
      rw [if_pos h2]
    · have hnp : ¬ a.id = p.id := fun h =>
        h2 ((rec_eq_of_id hI ha hp h) ▸ hpt)
      rw [if_neg hnp, if_neg h1, if_neg h1, if_neg h2]

theorem swapMap_id_payload (rid : String) (k t : Int) (a : OrderRec) :
    (swapMap rid k t a).id = a.id ∧ (swapMap rid k t a).payload = a.payload := by
  unfold swapMap
  by_cases h1 : a.id = rid
  · simp [h1]
  · by_cases h2 : a.sort_order = t <;> simp [h1, h2]

theorem map_swapMap_idsNodup {db : List OrderRec} (hI : IdsNodup db)
    (rid : String) (k t : Int) : IdsNodup (db.map (swapMap rid k t)) := by
  unfold IdsNodup
  rw [List.map_map]
  have : (fun a => a.id) ∘ swapMap rid k t = fun a : OrderRec => a.id := by
    funext a
    exact (swapMap_id_payload rid k t a).1
  rw [this]
  exact hI

theorem map_swapMap_dense {db : List OrderRec} {r p : OrderRec} {t : Int}
    (hD : Dense db) (hI : IdsNodup db) (hr : r ∈ db) (hp : p ∈ db)
    (hpt : p.sort_order = t) (hne : p.sort_order ≠ r.sort_order) :
    Dense (db.map (swapMap r.id r.sort_order t)) := by
  have hpr : p ≠ r := fun h => hne (by rw [h])
  have hpid : p.id ≠ r.id := fun h => hpr (rec_eq_of_id hI hp hr h)
  have hnd : db.Nodup := List.Nodup.of_map _ hI
  unfold Dense sortOrders
  rw [List.map_map, List.length_map]
  have hperm : List.Perm (db.map ((fun a : OrderRec => a.sort_order) ∘ swapMap r.id r.sort_order t))
      (db.map (fun a : OrderRec => a.sort_order)) := by
    refine map_swap_perm _ _ db r p hnd hr hp (fun h => hpr h.symm) ?_ ?_ ?_
    · simp only [Function.comp_apply, swapMap, if_pos rfl]
      exact hpt.symm
    · simp only [Function.comp_apply, swapMap]
      rw [if_neg hpid, if_pos hpt]
    · intro x hx hxr hxp
      simp only [Function.comp_apply, swapMap]
      have hx1 : ¬ x.id = r.id := fun h => hxr (rec_eq_of_id hI hx hr h)
      have hx2 : ¬ x.sort_order = t := fun h =>
        hxp (rec_eq_of_sortOrder hD hx hp (h.trans hpt.symm))
      rw [if_neg hx1, if_neg hx2]
  exact hperm.trans hD

/-- Under the dense-permutation invariant, `handleMoveUp` on a record `r`
with `sort_order = k >= 1` (both updates succeeding) is exactly
`swapMap`: `r` receives `k - 1`, the neighbor holding `k - 1` receives
`k`, everything else is untouched. -/
theorem handleMoveUp_eq {db : List OrderRec} {r : OrderRec}
    (hD : Dense db) (hI : IdsNodup db) (hr : r ∈ db) (hk : 1 ≤ r.sort_order) :
    handleMoveUp db r.id r.sort_order =
      db.map (swapMap r.id r.sort_order (r.sort_order - 1)) := by
  obtain ⟨hb0, hbN⟩ := dense_sortOrder_bounds hD hr
  obtain ⟨p, hp, hps⟩ := dense_exists_rec hD (x := r.sort_order - 1) (by omega) (by omega)
  unfold handleMoveUp handleMoveUpWith
  rw [find?_sortOrder_eq hD hp hps]
  simp only [if_true]
  exact double_update_eq hD hI hr hp hps (by omega)

/-- Symmetric characterization of `handleMoveDown` for a record that is
not last (`k + 1 < N`). -/
theorem handleMoveDown_eq {db : List OrderRec} {r : OrderRec}
    (hD : Dense db) (hI : IdsNodup db) (hr : r ∈ db)
    (hk : r.sort_order + 1 < (db.length : Int)) :
    handleMoveDown db r.id r.sort_order =
      db.map (swapMap r.id r.sort_order (r.sort_order + 1)) := by
  obtain ⟨hb0, hbN⟩ := dense_sortOrder_bounds hD hr
  obtain ⟨p, hp, hps⟩ := dense_exists_rec hD (x := r.sort_order + 1) (by omega) (by omega)
  unfold handleMoveDown handleMoveDownWith
  rw [find?_sortOrder_eq hD hp hps]
  simp only [if_true]
  exact double_update_eq hD hI hr hp hps (by omega)

/-- Structure eta: writing back the current ordering value changes nothing. -/
theorem set_sortOrder_self (a : OrderRec) : { a with sort_order := a.sort_order } = a := rfl

/-! ### Claim theorems for the order maintainer -/

/-- C1: on a dense collection, `handleMoveUp` on a record with
`sort_order = k >= 1` (and symmetrically `handleMoveDown` on a record
with `k + 1 < N`), with both persistence updates succeeding, exchanges
the ordering values of the record and its adjacent neighbor, leaves the
`id` and `payload` of every record and the `sort_order` of all other
records untouched (the `swapMap` equation), and preserves the
dense-permutation invariant and id uniqueness. -/
theorem move_swaps_and_preserves_dense :
    (∀ (db : List OrderRec) (r : OrderRec), Dense db → IdsNodup db → r ∈ db →
      1 ≤ r.sort_order →
      handleMoveUp db r.id r.sort_order =
        db.map (swapMap r.id r.sort_order (r.sort_order - 1)) ∧
      Dense (handleMoveUp db r.id r.sort_order) ∧
      IdsNodup (handleMoveUp db r.id r.sort_order)) ∧
    (∀ (db : List OrderRec) (r : OrderRec), Dense db → IdsNodup db → r ∈ db →
      r.sort_order + 1 < (db.length : Int) →
      handleMoveDown db r.id r.sort_order =
        db.map (swapMap r.id r.sort_order (r.sort_order + 1)) ∧
      Dense (handleMoveDown db r.id r.sort_order) ∧
      IdsNodup (handleMoveDown db r.id r.sort_order)) := by
  constructor
  · intro db r hD hI hr hk
    obtain ⟨hb0, hbN⟩ := dense_sortOrder_bounds hD hr
    obtain ⟨p, hp, hps⟩ := dense_exists_rec hD (x := r.sort_order - 1) (by omega) (by omega)
    have heq := handleMoveUp_eq hD hI hr hk
    refine ⟨heq, ?_, ?_⟩
    · rw [heq]
      exact map_swapMap_dense hD hI hr hp hps (by omega)
    · rw [heq]
      exact map_swapMap_idsNodup hI _ _ _
  · intro db r hD hI hr hk
    obtain ⟨hb0, hbN⟩ := dense_sortOrder_bounds hD hr
    obtain ⟨p, hp, hps⟩ := dense_exists_rec hD (x := r.sort_order + 1) (by omega) (by omega)
    have heq := handleMoveDown_eq hD hI hr hk
    refine ⟨heq, ?_, ?_⟩
    · rw [heq]
      exact map_swapMap_dense hD hI hr hp hps (by omega)
    · rw [heq]
      exact map_swapMap_idsNodup hI _ _ _

/-- Shared example collection: three records with ordering `[0, 1, 2]`. -/
def exDb : List OrderRec :=
  [⟨"a", 0, "pa"⟩, ⟨"b", 1, "pb"⟩, ⟨"c", 2, "pc"⟩]

/-- Witness for C1 at the spec scenario (`moveUp` on the record at
`sort_order = 2` of a three-element collection). -/
theorem move_swaps_and_preserves_dense_witness :
    handleMoveUp exDb "c" 2 = exDb.map (swapMap "c" 2 1) ∧
    Dense (handleMoveUp exDb "c" 2) ∧ IdsNodup (handleMoveUp exDb "c" 2) :=
  move_swaps_and_preserves_dense.1 exDb ⟨"c", 2, "pc"⟩
    (by decide) (by decide) (by decide) (by decide)

/-- C2: on a dense collection with unique ids, `moveUp` on a record with
`sort_order = k >= 1` followed by `moveDown` on the same id (now at
`k - 1`), with all four persistence updates succeeding, restores exactly
the original collection. -/
theorem moveUp_moveDown_roundtrip (db : List OrderRec) (r : OrderRec)
    (hD : Dense db) (hI : IdsNodup db) (hr : r ∈ db) (hk : 1 ≤ r.sort_order) :
    handleMoveDown (handleMoveUp db r.id r.sort_order) r.id (r.sort_order - 1) = db := by
  obtain ⟨hb0, hbN⟩ := dense_sortOrder_bounds hD hr
  obtain ⟨p, hp, hps⟩ := dense_exists_rec hD (x := r.sort_order - 1) (by omega) (by omega)
  have hpr : p ≠ r := fun h => by rw [h] at hps; omega
  have hpid : p.id ≠ r.id := fun h => hpr (rec_eq_of_id hI hp hr h)
  have heq := handleMoveUp_eq hD hI hr hk
  rw [heq]
  have hD2 : Dense (db.map (swapMap r.id r.sort_order (r.sort_order - 1))) :=
    map_swapMap_dense hD hI hr hp hps (by omega)
  -- the record now holding value `r.sort_order` in the new collection is the old neighbor
  have hp2 : swapMap r.id r.sort_order (r.sort_order - 1) p ∈
      db.map (swapMap r.id r.sort_order (r.sort_order - 1)) :=
    List.mem_map_of_mem _ hp
  have hp2so : (swapMap r.id r.sort_order (r.sort_order - 1) p).sort_order =
      r.sort_order - 1 + 1 := by
    unfold swapMap
    rw [if_neg hpid, if_pos hps]
    show r.sort_order = r.sort_order - 1 + 1
    omega
  have hp2id : (swapMap r.id r.sort_order (r.sort_order - 1) p).id = p.id :=
    (swapMap_id_payload _ _ _ p).1
  unfold handleMoveDown handleMoveDownWith
  rw [find?_sortOrder_eq hD2 hp2 hp2so]
  simp only [if_true]
  unfold updateSortOrder
  rw [List.map_map, List.map_map, hp2id]
  refine Eq.trans (List.map_congr_left ?_) (List.map_id db)
  intro a ha
  simp only [Function.comp_apply]
  by_cases h1 : a.id = r.id
  · have har : a = r := rec_eq_of_id hI ha hr h1
    subst har
    have hpid2 : ¬ a.id = p.id := fun h => hpid h.symm
    have e1 : swapMap a.id a.sort_order (a.sort_order - 1) a =
        { a with sort_order := a.sort_order - 1 } := by
      unfold swapMap
      rw [if_pos rfl]
    rw [e1, if_neg hpid2, if_pos rfl]
    have e2 : a.sort_order - 1 + 1 = a.sort_order := by omega
    rw [e2]
    rfl
  · by_cases h2 : a.sort_order = r.sort_order - 1
    · have hap : a = p := rec_eq_of_sortOrder hD ha hp (h2.trans hps.symm)
      subst hap
      have e1 : swapMap r.id r.sort_order (r.sort_order - 1) a =
          { a with sort_order := r.sort_order } := by
        unfold swapMap
        rw [if_neg h1, if_pos h2]
      rw [e1, if_pos rfl, if_neg h1, ← h2]
      rfl
    · have hnp : ¬ a.id = p.id := fun h =>
        h2 ((rec_eq_of_id hI ha hp h) ▸ hps)
      have e1 : swapMap r.id r.sort_order (r.sort_order - 1) a = a := by
        unfold swapMap
        rw [if_neg h1, if_neg h2]
      rw [e1, if_neg hnp, if_neg h1]
      rfl

/-- Witness for C2 at a three-element dense collection, moving the middle
record up and then back down. -/
theorem moveUp_moveDown_roundtrip_witness :
    handleMoveDown (handleMoveUp exDb "b" 1) "b" 0 = exDb :=
  moveUp_moveDown_roundtrip exDb ⟨"b", 1, "pb"⟩
    (by decide) (by decide) (by decide) (by decide)

/-- C3: on a dense collection, `moveUp` with `currentOrder = 0` (the
first record) finds no neighbor at `-1` and is a no-op that reports no
error, and `moveDown` with `currentOrder = N - 1` (the last record)
finds no neighbor at `N` and is likewise an error-free no-op — whatever
the persistence outcomes would have been, since no update is ever
dispatched. -/
theorem move_boundary_noop :
    (∀ (db : List OrderRec) (rid : String) (ok1 ok2 : Bool), Dense db →
      handleMoveUpWith ok1 ok2 db rid 0 = (db, false)) ∧
    (∀ (db : List OrderRec) (rid : String) (ok1 ok2 : Bool), Dense db →
      handleMoveDownWith ok1 ok2 db rid ((db.length : Int) - 1) = (db, false)) := by
  constructor
  · intro db rid ok1 ok2 hD
    have hnone : db.find? (fun c => c.sort_order == (0 : Int) - 1) = none := by
      rw [List.find?_eq_none]
      intro c hc
      have hb := (dense_sortOrder_bounds hD hc).1
      simp only [beq_iff_eq]
      omega
    unfold handleMoveUpWith
    rw [hnone]
  · intro db rid ok1 ok2 hD
    have hnone : db.find? (fun c => c.sort_order == (db.length : Int) - 1 + 1) = none := by
      rw [List.find?_eq_none]
      intro c hc
      have hb := (dense_sortOrder_bounds hD hc).2
      simp only [beq_iff_eq]
      omega
    unfold handleMoveDownWith
    rw [hnone]

/-- Witness for C3 on the three-element example collection. -/
theorem move_boundary_noop_witness :
    handleMoveUpWith true true exDb "a" 0 = (exDb, false) ∧
    handleMoveDownWith false true exDb "c" ((exDb.length : Int) - 1) = (exDb, false) :=
  ⟨move_boundary_noop.1 exDb "a" true true (by decide),
   move_boundary_noop.2 exDb "c" false true (by decide)⟩

/-- C10: when the first persistence update of `moveUp` fails and the
second succeeds, the second update has already been dispatched before
the first error is inspected, so the handler reports the error while the
collection is left with the target record moved to `k - 1` and the
neighbor unmoved: the ordering column now contains a duplicated value
and the dense-permutation invariant is broken. -/
theorem moveUp_first_update_failure (db : List OrderRec) (r : OrderRec)
    (hD : Dense db) (hI : IdsNodup db) (hr : r ∈ db) (hk : 1 ≤ r.sort_order) :
    (handleMoveUpWith false true db r.id r.sort_order).2 = true ∧
    (handleMoveUpWith false true db r.id r.sort_order).1 =
      updateSortOrder db r.id (r.sort_order - 1) ∧
    ¬ (sortOrders (updateSortOrder db r.id (r.sort_order - 1))).Nodup ∧
    ¬ Dense (updateSortOrder db r.id (r.sort_order - 1)) := by
  obtain ⟨hb0, hbN⟩ := dense_sortOrder_bounds hD hr
  obtain ⟨p, hp, hps⟩ := dense_exists_rec hD (x := r.sort_order - 1) (by omega) (by omega)
  have hpr : p ≠ r := fun h => by rw [h] at hps; omega
  have hpid : p.id ≠ r.id := fun h => hpr (rec_eq_of_id hI hp hr h)
  have hstate : handleMoveUpWith false true db r.id r.sort_order =
      (updateSortOrder db r.id (r.sort_order - 1), true) := by
    unfold handleMoveUpWith
    rw [find?_sortOrder_eq hD hp hps]
    rfl
  have hdup : ¬ (sortOrders (updateSortOrder db r.id (r.sort_order - 1))).Nodup := by
    intro hnd
    have hmem1 : ({ r with sort_order := r.sort_order - 1 } : OrderRec) ∈
        updateSortOrder db r.id (r.sort_order - 1) := by
      unfold updateSortOrder
      refine List.mem_map.mpr ⟨r, hr, ?_⟩
      simp
    have hmem2 : p ∈ updateSortOrder db r.id (r.sort_order - 1) := by
      unfold updateSortOrder
      refine List.mem_map.mpr ⟨p, hp, ?_⟩
      simp [hpid]
    have heqrec : ({ r with sort_order := r.sort_order - 1 } : OrderRec) = p :=
      List.inj_on_of_nodup_map hnd hmem1 hmem2 (by rw [← hps])
    exact hpid (by rw [← heqrec])
  refine ⟨by rw [hstate], by rw [hstate], hdup, fun h => hdup (dense_sortOrders_nodup h)⟩

/-- Witness for C10: moving the last record of the example collection up
while the first update fails leaves ordering values `[0, 1, 1]`. -/
theorem moveUp_first_update_failure_witness :
    (handleMoveUpWith false true exDb "c" 2).2 = true ∧
    (handleMoveUpWith false true exDb "c" 2).1 = updateSortOrder exDb "c" 1 ∧
    ¬ (sortOrders (updateSortOrder exDb "c" 1)).Nodup ∧
    ¬ Dense (updateSortOrder exDb "c" 1) :=
  moveUp_first_update_failure exDb ⟨"c", 2, "pc"⟩
    (by decide) (by decide) (by decide) (by decide)

/-! ### Time-bucketed traffic aggregator (`AdminTrafficStats.fetchStats`)

Timestamps are modelled as UTC milliseconds (integers); the ISO date
string `d.toISOString().split('T')[0]` identifies exactly the floor
`t / 86400000`, and `d.setDate(d.getDate() + 1)` adds one day.
Comparing ISO date strings with `localeCompare` orders them exactly as
the day numbers. -/

def msPerDay : Int := 86400000

/-- the UTC calendar day of a timestamp. -/
def dayOf (t : Int) : Int := t.fdiv msPerDay

/-- a row of `user_login_logs` as selected by `fetchStats`. -/
structure LoginLog where
  logged_in_at : Int
  user_id : String
deriving DecidableEq, Repr

/-- one element of `processedStats`. -/
structure DailyStat where
  date : Int
  visits : Nat
  unique_users : Nat
deriving DecidableEq, Repr

/-- the loop
`for (let d = new Date(startDate); d <= endDate; d.setDate(d.getDate() + 1))`:
the timestamps at which a bucket key is created. -/
def bucketStarts (s e : Int) : List Int :=
  if _h : s ≤ e then s :: bucketStarts (s + msPerDay) e else []
termination_by (e + msPerDay - s).toNat
decreasing_by
  simp only [msPerDay] at *
  omega

/-- the bucket of the day of `d0`: `visits` counts the logs of that
calendar day, `users.size` is the number of distinct `user_id`s among
them. -/
def bucketFor (logs : List LoginLog) (d0 : Int) : DailyStat :=
  { date := dayOf d0
    visits := (logs.filter (fun log => dayOf log.logged_in_at == dayOf d0)).length
    unique_users := ((logs.filter (fun log => dayOf log.logged_in_at == dayOf d0)).map
      (fun log => log.user_id)).dedup.length }

/-- the aggregation core of `fetchStats`: initialize one bucket per loop
step, fold the logs into the buckets of their own day (logs whose day is
not a key are dropped by the `if (dayStats)` guard), and sort the
emitted array by date. -/
def processStats (s e : Int) (logs : List LoginLog) : List DailyStat :=
  ((bucketStarts s e).map (bucketFor logs)).mergeSort
    (fun a b => decide (a.date ≤ b.date))

/-- the number of loop iterations of the bucket-creation loop. -/
def numDays (s e : Int) : Nat := if s ≤ e then ((e - s) / msPerDay).toNat + 1 else 0

theorem bucketStarts_of_le {s e : Int} (h : s ≤ e) :
    bucketStarts s e = s :: bucketStarts (s + msPerDay) e := by
  rw [bucketStarts, dif_pos h]

theorem bucketStarts_of_gt {s e : Int} (h : ¬ s ≤ e) : bucketStarts s e = [] := by
  rw [bucketStarts, dif_neg h]

theorem bucketStarts_closed_aux : ∀ (n : Nat) (s e : Int),
    (e + msPerDay - s).toNat ≤ n →
    bucketStarts s e =
      (List.range (numDays s e)).map (fun k : Nat => s + (k : Int) * msPerDay) := by
  intro n
  induction n with
  | zero =>
      intro s e h
      have hgt : ¬ s ≤ e := by
        simp only [msPerDay] at h
        omega
      rw [bucketStarts_of_gt hgt]
      unfold numDays
      rw [if_neg hgt]
      simp
  | succ n ih =>
      intro s e h
      by_cases hse : s ≤ e
      · rw [bucketStarts_of_le hse]
        rw [ih (s + msPerDay) e (by simp only [msPerDay] at *; omega)]
        by_cases h2 : s + msPerDay ≤ e
        · have hstep : numDays s e = numDays (s + msPerDay) e + 1 := by
            unfold numDays
            rw [if_pos hse, if_pos h2]
            simp only [msPerDay] at *
            omega
          rw [hstep, List.range_succ_eq_map]
          simp only [List.map_cons, List.map_map]
          refine congrArg₂ (· :: ·) (by push_cast; ring) ?_
          refine List.map_congr_left ?_
          intro k _
          simp only [Function.comp_apply]
          push_cast
          ring
        · have hnum2 : numDays (s + msPerDay) e = 0 := by
            unfold numDays
            rw [if_neg h2]
          have hnum : numDays s e = 1 := by
            unfold numDays
            rw [if_pos hse]
            simp only [msPerDay] at *
            omega
          rw [hnum2, hnum]
          rw [show List.range 1 = [0] from rfl]
          simp
      · rw [bucketStarts_of_gt hse]
        unfold numDays
        rw [if_neg hse]
        simp

theorem bucketStarts_closed (s e : Int) :
    bucketStarts s e =
      (List.range (numDays s e)).map (fun k : Nat => s + (k : Int) * msPerDay) :=
  bucketStarts_closed_aux (e + msPerDay - s).toNat s e le_rfl

theorem dayOf_eq_ediv (t : Int) : dayOf t = t / msPerDay :=
  Int.fdiv_eq_ediv t (by norm_num [msPerDay])

theorem dayOf_add_mul (s : Int) (k : Nat) :
    dayOf (s + (k : Int) * msPerDay) = dayOf s + (k : Int) := by
  rw [dayOf_eq_ediv, dayOf_eq_ediv]
  exact Int.add_mul_ediv_right s (k : Int) (by norm_num [msPerDay])

/-- the `.sort(...)` of `fetchStats` is the identity: the buckets are
created in ascending date order. -/
theorem processStats_eq (s e : Int) (logs : List LoginLog) :
    processStats s e logs = (bucketStarts s e).map (bucketFor logs) := by
  unfold processStats
  apply List.mergeSort_of_sorted
  rw [bucketStarts_closed, List.map_map, List.pairwise_map]
  refine (List.sorted_lt_range _).imp ?_
  intro i j hij
  simp only [Function.comp_apply, bucketFor, dayOf_add_mul, decide_eq_true_eq]
  omega

theorem length_processStats (s e : Int) (logs : List LoginLog) :
    (processStats s e logs).length = numDays s e := by
  rw [processStats_eq, List.length_map, bucketStarts_closed, List.length_map,
    List.length_range]

/-- C4 (amended): for `start <= end` the emitted buckets are in strictly
ascending date order (hence at most one bucket per calendar day) and
their number is the loop-step count `(end - start) / msPerDay + 1` —
the inclusive calendar-day count only when the time of day of `end` is
not earlier than that of `start` (as in the code, where both ends are
"now") — and with no events every bucket has zero counts. -/
theorem aggregator_shape (s e : Int) (logs : List LoginLog) (hse : s ≤ e) :
    (processStats s e logs).length = ((e - s) / msPerDay).toNat + 1 ∧
    List.Pairwise (fun a b : DailyStat => a.date < b.date) (processStats s e logs) ∧
    (processStats s e []).all (fun b => b.visits == 0 && b.unique_users == 0) = true := by
  refine ⟨?_, ?_, ?_⟩
  · rw [length_processStats]
    unfold numDays
    rw [if_pos hse]
  · rw [processStats_eq, bucketStarts_closed, List.map_map, List.pairwise_map]
    refine (List.sorted_lt_range _).imp ?_
    intro i j hij
    simp only [Function.comp_apply, bucketFor, dayOf_add_mul]
    omega
  · rw [processStats_eq, List.all_eq_true]
    intro b hb
    obtain ⟨d0, hd0, rfl⟩ := List.mem_map.mp hb
    simp [bucketFor]

/-- Counterexample for C4 as stated: with `start` at 23:00 of day 0 and
`end` at 01:00 of day 2 the loop creates only 2 buckets, not the 3
calendar days the inclusive day count promises. -/
theorem aggregator_length_cex :
    (82800000 : Int) ≤ 176400000 ∧
    (processStats 82800000 176400000 []).length ≠
      (dayOf 176400000 - dayOf 82800000 + 1).toNat := by
  refine ⟨by norm_num, ?_⟩
  rw [length_processStats]
  decide

/-- Witness for C4 over a two-day range starting at midnight. -/
theorem aggregator_shape_witness :
    (processStats 0 172800000 []).length = ((172800000 - 0) / msPerDay).toNat + 1 ∧
    List.Pairwise (fun a b : DailyStat => a.date < b.date) (processStats 0 172800000 []) ∧
    (processStats 0 172800000 []).all (fun b => b.visits == 0 && b.unique_users == 0) = true :=
  aggregator_shape 0 172800000 [] (by norm_num)

/-- C6 (amended): with `start > end` the bucket loop never runs and
`fetchStats` produces an empty bucket list, with no error of any kind —
there is no InvalidRange failure in the code. -/
theorem aggregator_empty_of_invalid_range (s e : Int) (logs : List LoginLog)
    (h : e < s) : processStats s e logs = [] := by
  rw [processStats_eq, bucketStarts_of_gt (by omega)]
  rfl

/-- Counterexample for C6 as stated: at `start = 1 > 0 = end` the
aggregator returns the non-error value `[]` (the empty bucket sequence
the claim rules out) even with an event present. -/
theorem aggregator_invalid_range_cex :
    processStats 1 0 [⟨0, "A"⟩] = ([] : List DailyStat) := by
  rw [processStats_eq, bucketStarts_of_gt (by norm_num)]
  rfl

/-- Witness for C6 (amended) at a different concrete invalid range. -/
theorem aggregator_empty_of_invalid_range_witness :
    processStats 5 3 [] = ([] : List DailyStat) :=
  aggregator_empty_of_invalid_range 5 3 [] (by norm_num)

theorem countP_or_disjoint {α : Type} (p q : α → Bool) (l : List α)
    (h : ∀ a, ¬(p a = true ∧ q a = true)) :
    l.countP (fun a => p a || q a) = l.countP p + l.countP q := by
  induction l with
  | nil => simp
  | cons x xs ih =>
      have hx := h x
      rw [List.countP_cons, List.countP_cons, List.countP_cons, ih]
      cases hp : p x <;> cases hq : q x <;> simp_all <;> omega

/-- Summing the per-day counts over `K` consecutive days counts exactly
the logs whose day falls in the `K`-day window. -/
theorem sum_bucket_counts (d : Int) (K : Nat) (logs : List LoginLog) :
    ((List.range K).map (fun k : Nat =>
        (logs.filter (fun log => dayOf log.logged_in_at == d + (k : Int))).length)).sum
      = (logs.filter (fun log =>
          decide (d ≤ dayOf log.logged_in_at ∧ dayOf log.logged_in_at < d + (K : Int)))).length := by
  induction K with
  | zero =>
      simp only [List.range_zero, List.map_nil, List.sum_nil]
      symm
      rw [List.length_eq_zero, List.filter_eq_nil_iff]
      intro a _
      simp only [decide_eq_true_eq]
      push_cast
      omega
  | succ K ih =>
      rw [List.range_succ, List.map_append, List.sum_append, ih]
      simp only [List.map_cons, List.map_nil, List.sum_cons, List.sum_nil, Nat.add_zero]
      rw [← List.countP_eq_length_filter, ← List.countP_eq_length_filter,
        ← List.countP_eq_length_filter]
      rw [← countP_or_disjoint _ _ _ (fun a => by
        simp only [decide_eq_true_eq, beq_iff_eq]
        rintro ⟨⟨-, h2⟩, h3⟩
        omega)]
      refine List.countP_congr ?_
      intro log _
      simp only [Bool.or_eq_true, decide_eq_true_eq, beq_iff_eq]
      push_cast
      omega

/-- The spec scenario: three events on day 1, one on day 3. -/
def scenarioLogs : List LoginLog :=
  [⟨0, "userA"⟩, ⟨0, "userA"⟩, ⟨0, "userB"⟩, ⟨172800000, "userA"⟩]

/-- C5: the total of `event_count` over the emitted buckets equals the
number of events whose calendar day is one of the initialized bucket
days; each bucket counts exactly its own day's events and its
`distinct_actor_count` is the number of distinct actors among them;
events whose day is outside the initialized range are silently dropped
(filtering them away does not change the output); and the spec scenario
evaluates to `[{day1,3,2},{day2,0,0},{day3,1,1}]`. -/
theorem aggregator_counts (s e : Int) (logs : List LoginLog) (_hse : s ≤ e) :
    ((processStats s e logs).map (fun b => b.visits)).sum =
      (logs.filter (fun log =>
        (bucketStarts s e).any (fun d0 => dayOf log.logged_in_at == dayOf d0))).length ∧
    processStats s e logs = (bucketStarts s e).map (fun d0 =>
      { date := dayOf d0
        visits := (logs.filter (fun log => dayOf log.logged_in_at == dayOf d0)).length
        unique_users := ((logs.filter (fun log => dayOf log.logged_in_at == dayOf d0)).map
          (fun log => log.user_id)).toFinset.card }) ∧
    processStats s e logs = processStats s e (logs.filter (fun log =>
      (bucketStarts s e).any (fun d0 => dayOf log.logged_in_at == dayOf d0))) ∧
    processStats 0 172800000 scenarioLogs = [⟨0, 3, 2⟩, ⟨1, 0, 0⟩, ⟨2, 1, 1⟩] := by
  refine ⟨?_, ?_, ?_, ?_⟩
  · rw [processStats_eq, List.map_map, bucketStarts_closed, List.map_map]
    have hmap : ∀ k ∈ List.range (numDays s e),
        (((fun b : DailyStat => b.visits) ∘ bucketFor logs) ∘
            (fun k : Nat => s + (k : Int) * msPerDay)) k
          = (logs.filter (fun log =>
              dayOf log.logged_in_at == dayOf s + (k : Int))).length := by
      intro k _
      simp only [Function.comp_apply, bucketFor, dayOf_add_mul]
    rw [List.map_congr_left hmap, sum_bucket_counts]
    refine congrArg List.length (List.filter_congr ?_)
    intro log _
    rw [Bool.eq_iff_iff]
    simp only [decide_eq_true_eq, List.any_eq_true, List.mem_map, List.mem_range,
      beq_iff_eq]
    constructor
    · rintro ⟨h1, h2⟩
      exact ⟨s + ((dayOf log.logged_in_at - dayOf s).toNat : Int) * msPerDay,
        ⟨(dayOf log.logged_in_at - dayOf s).toNat, by omega, rfl⟩,
        by rw [dayOf_add_mul]; omega⟩
    · rintro ⟨d0, ⟨k, hk, rfl⟩, heq⟩
      rw [dayOf_add_mul] at heq
      omega
  · rw [processStats_eq]
    refine List.map_congr_left ?_
    intro d0 _
    unfold bucketFor
    rw [List.card_toFinset]
  · rw [processStats_eq, processStats_eq]
    refine List.map_congr_left ?_
    intro d0 hd0
    unfold bucketFor
    have hfe : (logs.filter (fun log =>
        (bucketStarts s e).any (fun d1 => dayOf log.logged_in_at == dayOf d1))).filter
          (fun log => dayOf log.logged_in_at == dayOf d0) =
        logs.filter (fun log => dayOf log.logged_in_at == dayOf d0) := by
      rw [List.filter_filter]
      refine List.filter_congr ?_
      intro log _
      rw [Bool.eq_iff_iff]
      simp only [Bool.and_eq_true, List.any_eq_true, beq_iff_eq]
      constructor
      · rintro ⟨h1, -⟩
        exact h1
      · intro h1
        exact ⟨h1, d0, hd0, h1⟩
    rw [hfe]
  · rw [processStats_eq, bucketStarts_closed]
    decide

/-- Witness for C5, applying the count theorem to the spec scenario
range and events. -/
theorem aggregator_counts_witness :
    ((processStats 0 172800000 scenarioLogs).map (fun b => b.visits)).sum =
      (scenarioLogs.filter (fun log =>
        (bucketStarts 0 172800000).any (fun d0 => dayOf log.logged_in_at == dayOf d0))).length ∧
    processStats 0 172800000 scenarioLogs = (bucketStarts 0 172800000).map (fun d0 =>
      { date := dayOf d0
        visits := (scenarioLogs.filter (fun log => dayOf log.logged_in_at == dayOf d0)).length
        unique_users := ((scenarioLogs.filter
          (fun log => dayOf log.logged_in_at == dayOf d0)).map
          (fun log => log.user_id)).toFinset.card }) ∧
    processStats 0 172800000 scenarioLogs =
      processStats 0 172800000 (scenarioLogs.filter (fun log =>
        (bucketStarts 0 172800000).any (fun d0 => dayOf log.logged_in_at == dayOf d0))) ∧
    processStats 0 172800000 scenarioLogs = [⟨0, 3, 2⟩, ⟨1, 0, 0⟩, ⟨2, 1, 1⟩] :=
  aggregator_counts 0 172800000 scenarioLogs (by norm_num)

/-! ### Create flow of the orderable collections -/

/-- JS `String.prototype.trim()`: strip whitespace from both ends
(modelled on the character list so that it evaluates by `decide`). -/
def jsTrim (s : String) : String :=
  String.mk (((s.data.dropWhile Char.isWhitespace).reverse.dropWhile
    Char.isWhitespace).reverse)

/-- The create-modal form of `ForumCategories`. -/
structure CategoryForm where
  name : String
  description : String
  icon : String
  sort_order : Int
  is_active : Bool
deriving DecidableEq, Repr

/-- The create/edit form of `HomepageBanners`. -/
structure BannerForm where
  image_url : String
  title : String
  link_url : String
  order : Int
  is_active : Bool
deriving DecidableEq, Repr

/-- Opening the add-category modal presets the form: empty name and
description, default icon, `sort_order: categories.length`, active. -/
def openCreateCategoryModal (categories : List OrderRec) : CategoryForm :=
  { name := ""
    description := ""
    icon := "message-square"
    sort_order := (categories.length : Int)
    is_active := true }

/-- Clicking the add-banner button presets the form with
`order: banners.length`. -/
def openCreateBannerForm (banners : List OrderRec) : BannerForm :=
  { image_url := ""
    title := ""
    link_url := ""
    order := (banners.length : Int)
    is_active := true }

/-- `handleSubmit` of `ForumCategories` in create mode: validate, then
insert the form's fields as one row. -/
def handleSubmitCreateCategory (form : CategoryForm) : Except String CategoryForm :=
  if jsTrim form.name = "" then .error "分类名称不能为空"
  else if jsTrim form.description = "" then .error "分类描述不能为空"
  else .ok form

/-- `handleSubmit` of `HomepageBanners` in create mode: validate, then
insert the form's fields as one row. -/
def handleSubmitCreateBanner (form : BannerForm) : Except String BannerForm :=
  if form.image_url = "" then .error "请上传图片"
  else if jsTrim form.title = "" then .error "请输入标题"
  else if jsTrim form.link_url = "" then .error "请输入链接URL"
  else .ok form

/-- Appending a row with ordering value `N` to a dense collection of `N`
records keeps it dense. -/
theorem dense_append_last (db : List OrderRec) (i pl : String) (hD : Dense db) :
    Dense (db ++ [⟨i, (db.length : Int), pl⟩]) := by
  unfold Dense sortOrders at *
  rw [List.map_append, List.length_append]
  simp only [List.map_cons, List.map_nil, List.length_cons, List.length_nil]
  have hrange : denseRange (db.length + (0 + 1)) =
      denseRange db.length ++ [(db.length : Int)] := by
    unfold denseRange
    rw [Nat.zero_add, List.range_succ, List.map_append]
    simp
  rw [hrange]
  exact hD.append (List.Perm.refl _)

/-- C7: the create modal of each orderable collection presets the
ordering field to the current record count `N`, submitting such a form
(with the required fields filled in) inserts a row carrying ordering
value `N`, and appending that row keeps the collection dense — the new
record sits at the end of the ordering. -/
theorem create_appends_at_end (categories banners db : List OrderRec)
    (n d img t l i pl : String)
    (hn : ¬ jsTrim n = "") (hd : ¬ jsTrim d = "")
    (himg : ¬ img = "") (ht : ¬ jsTrim t = "") (hl : ¬ jsTrim l = "")
    (hD : Dense db) :
    (openCreateCategoryModal categories).sort_order = (categories.length : Int) ∧
    handleSubmitCreateCategory
        { openCreateCategoryModal categories with name := n, description := d } =
      .ok { openCreateCategoryModal categories with name := n, description := d } ∧
    ({ openCreateCategoryModal categories with name := n, description := d }).sort_order =
      (categories.length : Int) ∧
    (openCreateBannerForm banners).order = (banners.length : Int) ∧
    handleSubmitCreateBanner
        { openCreateBannerForm banners with image_url := img, title := t, link_url := l } =
      .ok { openCreateBannerForm banners with image_url := img, title := t, link_url := l } ∧
    ({ openCreateBannerForm banners with image_url := img, title := t, link_url := l }).order =
      (banners.length : Int) ∧
    Dense (db ++ [⟨i, (db.length : Int), pl⟩]) := by
  refine ⟨rfl, ?_, rfl, rfl, ?_, rfl, dense_append_last db i pl hD⟩
  · unfold handleSubmitCreateCategory
    rw [if_neg hn, if_neg hd]
  · unfold handleSubmitCreateBanner
    rw [if_neg himg, if_neg ht, if_neg hl]

/-- Witness for C7 on concrete one-element collections. -/
theorem create_appends_at_end_witness :
    (openCreateCategoryModal exDb).sort_order = (exDb.length : Int) ∧
    handleSubmitCreateCategory
        { openCreateCategoryModal exDb with name := "综合", description := "综合讨论" } =
      .ok { openCreateCategoryModal exDb with name := "综合", description := "综合讨论" } ∧
    ({ openCreateCategoryModal exDb with name := "综合", description := "综合讨论" }).sort_order =
      (exDb.length : Int) ∧
    (openCreateBannerForm exDb).order = (exDb.length : Int) ∧
    handleSubmitCreateBanner
        { openCreateBannerForm exDb with image_url := "u", title := "t", link_url := "l" } =
      .ok { openCreateBannerForm exDb with image_url := "u", title := "t", link_url := "l" } ∧
    ({ openCreateBannerForm exDb with image_url := "u", title := "t", link_url := "l" }).order =
      (exDb.length : Int) ∧
    Dense (exDb ++ [⟨"d", (exDb.length : Int), "pd"⟩]) :=
  create_appends_at_end exDb exDb exDb "综合" "综合讨论" "u" "t" "l" "d" "pd"
    (by decide) (by decide) (by decide) (by decide) (by decide) (by decide)

/-! ### CSV chapter import (`Chapters.handleCSVImport`) -/

/-- A parsed CSV data row under the header
`order, title, content, is_vip, publish_at` (Papa.parse with
`header: true` yields string fields; a missing field is modelled as the
empty string, which is what the importer's fallbacks produce). -/
structure CSVRow where
  order : String
  title : String
  content : String
  is_vip : String
  publish_at : String
deriving DecidableEq, Repr

/-- A JS number that may be NaN. -/
inductive JSNum where
  | nan
  | num (v : Int)
deriving DecidableEq, Repr

def digitsToNat (ds : List Char) : Nat :=
  ds.foldl (fun n c => n * 10 + (c.toNat - ('0').toNat)) 0

/-- JS `Number(s)` on the domain the importer meets: optional
surrounding whitespace, an optional sign and decimal digits (the empty
string coerces to `0`); anything else — e.g. a non-numeric `order`
field — yields `NaN`.  (Fractional, hexadecimal and exponent literals
are outside the modelled domain.) -/
def jsNumber (s : String) : JSNum :=
  match (jsTrim s).data with
  | [] => .num 0
  | '-' :: ds => if ds ≠ [] ∧ ds.all Char.isDigit then .num (-(digitsToNat ds : Int)) else .nan
  | '+' :: ds => if ds ≠ [] ∧ ds.all Char.isDigit then .num (digitsToNat ds) else .nan
  | ds => if ds.all Char.isDigit then .num (digitsToNat ds) else .nan

/-- JS `String.prototype.toLowerCase()` (ASCII range, modelled on the
character list). -/
def jsToLowerCase (s : String) : String :=
  String.mk (s.data.map Char.toLower)

/-- Case-insensitive string equality, the relation the spec describes. -/
def ciEq (a b : String) : Prop := jsToLowerCase a = jsToLowerCase b

/-- `content.trim().split(/\s+/).filter(Boolean).length`: the number of
maximal whitespace-separated tokens, counted by a single scan. -/
def countTokensAux : Bool → List Char → Nat
  | _, [] => 0
  | inWord, c :: cs =>
      if c.isWhitespace then countTokensAux false cs
      else (if inWord then 0 else 1) + countTokensAux true cs

def wordCount (content : String) : Nat := countTokensAux false content.data

/-- The imported chapter record built by `handleCSVImport` for one row. -/
structure ChapterRow where
  book_id : String
  order : JSNum
  title : String
  content : String
  is_vip : Bool
  publish_at : Option String
  word_count : Nat
deriving DecidableEq, Repr

/-- The per-row mapping of `handleCSVImport`. -/
def importRow (selectedBookId : String) (index : Nat) (row : CSVRow) : ChapterRow :=
  { book_id := selectedBookId
    order := jsNumber row.order
    title := if jsTrim row.title = "" then "章节 " ++ toString (index + 1) else jsTrim row.title
    content := row.content
    is_vip := jsToLowerCase row.is_vip == "true"
    publish_at := if row.publish_at = "" then none else some row.publish_at
    word_count := wordCount row.content }

/-- C8: the imported record's `is_vip` is true exactly when the row's
`is_vip` field equals `"true"` case-insensitively; `order` is the JS
numeric coercion of the `order` field, with the non-numeric field `"x"`
passed through as NaN; an empty `publish_at` becomes null and `word_count`
counts the whitespace-separated tokens of `content`; in particular the
row `"1,第一章,内容,false,"` imports exactly as the spec's scenario says,
and `"x,Title,Body,true,"` imports with `order = NaN` and `is_vip = true`. -/
theorem importRow_spec (bid : String) (idx : Nat) (row : CSVRow) :
    ((importRow bid idx row).is_vip = true ↔ ciEq row.is_vip "true") ∧
    (importRow bid idx row).order = jsNumber row.order ∧
    jsNumber "x" = JSNum.nan ∧
    (importRow bid idx row).publish_at =
      (if row.publish_at = "" then none else some row.publish_at) ∧
    (importRow bid idx row).word_count = wordCount row.content ∧
    wordCount "word1 word2  word3" = 3 ∧
    importRow bid 0 ⟨"1", "第一章", "内容", "false", ""⟩ =
      { book_id := bid, order := .num 1, title := "第一章", content := "内容",
        is_vip := false, publish_at := none, word_count := 1 } ∧
    (importRow bid idx ⟨"x", "Title", "Body", "true", ""⟩).order = JSNum.nan ∧
    (importRow bid idx ⟨"x", "Title", "Body", "true", ""⟩).is_vip = true := by
  refine ⟨?_, rfl, by decide, rfl, rfl, by decide, ?_,
    (show jsNumber "x" = JSNum.nan by decide),
    (show (jsToLowerCase "true" == "true") = true by decide)⟩
  · unfold importRow ciEq
    simp only [beq_iff_eq]
    constructor
    · intro h
      rw [h]
      decide
    · intro h
      rw [h]
      decide
  · rfl

/-! ### CSV transaction export (`AdminCoins.exportToCSV`) -/

/-- A cell value of the export: the selected columns are strings except
`Amount`, which is a number. -/
inductive CSVValue where
  | str (s : String)
  | num (n : Int)
deriving DecidableEq, Repr

/-- One element of `csvData`: the object
`{ Username, Amount, Type, Description, 'Transaction Date' }`. -/
structure CoinTxCSVRow where
  username : String
  amount : Int
  typeLabel : String
  description : String
  txDate : String
deriving DecidableEq, Repr

/-- `value.replace(/"/g, '""')`: double every double-quote character. -/
def escapeQuotes (s : String) : String :=
  String.mk (s.data.foldr
    (fun c acc => if c = '\"' then '\"' :: '\"' :: acc else c :: acc) [])

/-- `typeof value === 'string' ? `"${escaped}"` : value`. -/
def serializeCSVValue : CSVValue → String
  | .str s => "\"" ++ escapeQuotes s ++ "\""
  | .num n => toString n

/-- `Object.values(row)` in insertion order. -/
def csvRowValues (r : CoinTxCSVRow) : List CSVValue :=
  [.str r.username, .num r.amount, .str r.typeLabel, .str r.description, .str r.txDate]

/-- `Object.keys(csvData[0]).join(',')` for a nonempty export. -/
def csvHeaderLine : String := "Username,Amount,Type,Description,Transaction Date"

/-- the serialization core of `exportToCSV`:
`[headers, ...rows.map(row => Object.values(row).map(serialize).join(','))].join('\n')`,
where `headers` degenerates to `""` for an empty export
(`Object.keys(csvData?.[0] || {})`). -/
def exportToCSV (rows : List CoinTxCSVRow) : String :=
  let headers := match rows with
    | [] => ""
    | _ :: _ => csvHeaderLine
  let lines := rows.map (fun r =>
    String.intercalate "," ((csvRowValues r).map serializeCSVValue))
  String.intercalate "\n" (headers :: lines)

/-- Undo the quote doubling; inverse witness that the escaping loses no
information. -/
def undoubleQuotes : List Char → List Char
  | [] => []
  | [c] => [c]
  | c :: d :: cs =>
      if c = '\"' ∧ d = '\"' then '\"' :: undoubleQuotes cs
      else c :: undoubleQuotes (d :: cs)

theorem undouble_escape_aux : ∀ cs : List Char,
    undoubleQuotes (cs.foldr
      (fun c acc => if c = '\"' then '\"' :: '\"' :: acc else c :: acc) []) = cs := by
  intro cs
  induction cs with
  | nil => rfl
  | cons c cs ih =>
      simp only [List.foldr_cons]
      by_cases hc : c = '\"'
      · subst hc
        rw [if_pos rfl]
        show '\"' :: undoubleQuotes (cs.foldr _ []) = _
        rw [ih]
      · rw [if_neg hc]
        cases hrest : cs.foldr
            (fun c acc => if c = '\"' then '\"' :: '\"' :: acc else c :: acc) [] with
        | nil =>
            cases cs with
            | nil => rfl
            | cons d ds =>
                exfalso
                simp only [List.foldr_cons] at hrest
                by_cases hd : d = '\"'
                · rw [if_pos hd] at hrest
                  exact List.cons_ne_nil _ _ hrest
                · rw [if_neg hd] at hrest
                  exact List.cons_ne_nil _ _ hrest
        | cons d rest =>
            show (if c = '\"' ∧ d = '\"' then '\"' :: undoubleQuotes rest
              else c :: undoubleQuotes (d :: rest)) = c :: cs
            rw [if_neg (fun h => hc h.1), ← hrest, ih]

theorem undouble_escape (s : String) :
    undoubleQuotes (escapeQuotes s).data = s.data :=
  undouble_escape_aux s.data

theorem count_escape (s : String) :
    (escapeQuotes s).data.count '\"' = 2 * s.data.count '\"' := by
  show (s.data.foldr
      (fun c acc => if c = '\"' then '\"' :: '\"' :: acc else c :: acc) []).count '\"'
    = 2 * s.data.count '\"'
  induction s.data with
  | nil => rfl
  | cons c cs ih =>
      simp only [List.foldr_cons]
      by_cases hc : c = '\"'
      · subst hc
        rw [if_pos rfl]
        simp only [List.count_cons, ih]
        simp
        omega
      · rw [if_neg hc]
        simp only [List.count_cons, ih]
        simp [hc]

theorem intercalate_go_append (sep : String) : ∀ (l : List String) (a b : String),
    String.intercalate.go (a ++ b) sep l = a ++ String.intercalate.go b sep l := by
  intro l
  induction l with
  | nil =>
      intro a b
      rfl
  | cons x xs ih =>
      intro a b
      show String.intercalate.go (a ++ b ++ sep ++ x) sep xs =
        a ++ String.intercalate.go (b ++ sep ++ x) sep xs
      rw [String.append_assoc, String.append_assoc, ih, String.append_assoc b sep x]

theorem intercalate_cons (sep a : String) (t : List String) (ht : t ≠ []) :
    String.intercalate sep (a :: t) = a ++ sep ++ String.intercalate sep t := by
  obtain ⟨x, xs, rfl⟩ := List.exists_cons_of_ne_nil ht
  show String.intercalate.go a sep (x :: xs) = a ++ sep ++ String.intercalate.go x sep xs
  show String.intercalate.go (a ++ sep ++ x) sep xs = _
  have h1 : a ++ sep ++ x = (a ++ sep) ++ x := by rw [String.append_assoc]
  rw [h1, intercalate_go_append]

/-- C9: a nonempty export is the header line followed, separated by
newlines, by one line per transaction whose fields are joined by commas;
every string field is wrapped in double quotes with embedded quotes
doubled (losslessly: undoubling recovers the original, and the escaped
text has exactly twice as many quote characters), and the numeric
`Amount` field is emitted unquoted; an empty export degenerates to a
single empty line. -/
theorem exportToCSV_spec (rows : List CoinTxCSVRow) (s : String) (n : Int)
    (hne : rows ≠ []) :
    exportToCSV rows = csvHeaderLine ++ "\n" ++
      String.intercalate "\n" (rows.map (fun r =>
        String.intercalate "," ((csvRowValues r).map serializeCSVValue))) ∧
    serializeCSVValue (.str s) = "\"" ++ escapeQuotes s ++ "\"" ∧
    undoubleQuotes (escapeQuotes s).data = s.data ∧
    (escapeQuotes s).data.count '\"' = 2 * s.data.count '\"' ∧
    serializeCSVValue (.num n) = toString n ∧
    exportToCSV [] = "" := by
  refine ⟨?_, rfl, undouble_escape s, count_escape s, rfl, rfl⟩
  obtain ⟨r0, rest, rfl⟩ := List.exists_cons_of_ne_nil hne
  unfold exportToCSV
  exact intercalate_cons "\n" csvHeaderLine _ (by simp)

/-- Witness for C9: one concrete transaction row with an embedded quote
and a negative amount. -/
theorem exportToCSV_spec_witness :
    exportToCSV [⟨"ali\"ce", -5, "充值", "desc", "2024-01-01"⟩] = csvHeaderLine ++ "\n" ++
      String.intercalate "\n" ([⟨"ali\"ce", -5, "充值", "desc", "2024-01-01"⟩].map
        (fun r : CoinTxCSVRow =>
          String.intercalate "," ((csvRowValues r).map serializeCSVValue))) ∧
    serializeCSVValue (.str "say \"hi\"") = "\"" ++ escapeQuotes "say \"hi\"" ++ "\"" ∧
    undoubleQuotes (escapeQuotes "say \"hi\"").data = ("say \"hi\"").data ∧
    (escapeQuotes "say \"hi\"").data.count '\"' = 2 * ("say \"hi\"").data.count '\"' ∧
    serializeCSVValue (.num (-5)) = toString (-5 : Int) ∧
    exportToCSV [] = "" :=
  exportToCSV_spec [⟨"ali\"ce", -5, "充值", "desc", "2024-01-01"⟩] "say \"hi\"" (-5)
    (by simp)

end MythystAdmin
